import Mathlib

/-!
Shallow embedding of the two core components of the repository:
the text-emission model of `scripts/codegen.py` (`RustModule`,
`RustSimpleEnum` and their `to_string` methods) and the atlas packing
computation of `scripts/sprite_atlas.py` (`generate_atlas`).

Python strings become Lean `String`; Python `s[:-2:]` (drop the last two
characters) becomes `trimLast2`; Python `//` and `%` (floor division and
sign-of-divisor remainder) become `Int.fdiv` and `Int.fmod`.
-/

/-- Python `output[:-2:]`: the string with its last two characters removed
(the whole slice is empty when the string has fewer than two characters). -/
def trimLast2 (s : String) : String :=
  ⟨s.data.dropLast.dropLast⟩

/-- The `RustSimpleEnum` class of `scripts/codegen.py`: a name, a list of
variant labels, and a list of derive tags. -/
structure RustSimpleEnum where
  name : String
  variants : List String
  derives : List String
deriving DecidableEq

/-- Line-by-line translation of `RustSimpleEnum.to_string` from
`scripts/codegen.py`: build `"#[derive("`, append each derive followed by
`", "`, slice off the last two characters, close with `")]\n"`, emit the
`pub enum` line, one indented line per variant, and a closing brace. -/
def RustSimpleEnum.to_string (e : RustSimpleEnum) : String :=
  let output := "#[derive("
  let output := e.derives.foldl (fun acc d => acc ++ d ++ ", ") output
  let output := trimLast2 output
  let output := output ++ ")]\n"
  let output := output ++ "pub enum " ++ e.name ++ " \x7b\n"
  let output := e.variants.foldl (fun acc v => acc ++ ("    " ++ v ++ ",\n")) output
  let output := output ++ "\x7d"
  output

/-- The `RustItem` hierarchy of `scripts/codegen.py` as a closed inductive:
a module holds an ordered list of members, a simple enum is a leaf. -/
inductive RustItem where
  | module (members : List RustItem)
  | simpleEnum (e : RustSimpleEnum)

mutual

/-- Translation of the polymorphic `to_string`: `RustModule.to_string`
loops over the members, appending a newline and the member's text to an
accumulator that starts empty (and finally appends the empty string). -/
def RustItem.to_string : RustItem → String
  | RustItem.module members => (RustItem.moduleLoop members "") ++ ""
  | RustItem.simpleEnum e => e.to_string

/-- The accumulator loop of `RustModule.to_string`. -/
def RustItem.moduleLoop : List RustItem → String → String
  | [], output => output
  | m :: ms, output => RustItem.moduleLoop ms (output ++ "\n" ++ m.to_string)

end

/-- Concatenation of a list of strings, used to state canonical forms of
the accumulator loops. -/
def joinAll : List String → String
  | [] => ""
  | s :: rest => s ++ joinAll rest

/-- The derive tags joined by a comma and a space. -/
def commaJoin : List String → String
  | [] => ""
  | [d] => d
  | d :: e :: rest => d ++ ", " ++ commaJoin (e :: rest)

/-- The block of variant lines: four spaces, the variant, a comma, a
newline, for each variant in order. -/
def variantLinesText (vs : List String) : String :=
  joinAll (vs.map (fun v => "    " ++ v ++ ",\n"))

/-- The enum declaration below the derive header. -/
def enumDecl (name : String) (vs : List String) : String :=
  "pub enum " ++ name ++ " \x7b\n" ++ variantLinesText vs ++ "\x7d"

theorem foldl_append_join {α : Type} (g : α → String) (l : List α) :
    ∀ p : String, l.foldl (fun acc x => acc ++ g x) p = p ++ joinAll (l.map g) := by
  induction l with
  | nil => intro p; simp [joinAll]
  | cons x xs ih =>
    intro p
    simp only [List.foldl_cons, List.map_cons, joinAll]
    rw [ih, String.append_assoc]

theorem trimLast2_append_sep (s : String) : trimLast2 (s ++ ", ") = s := by
  cases s with
  | mk data =>
    show String.mk ((data ++ [',', ' ']).dropLast.dropLast) = String.mk data
    rw [show data ++ [',', ' '] = (data ++ [',']) ++ [' '] by simp,
      List.dropLast_concat, List.dropLast_concat]

theorem joinAll_sep_eq_commaJoin :
    ∀ (d : String) (rest : List String),
      joinAll ((d :: rest).map (fun x => x ++ ", ")) = commaJoin (d :: rest) ++ ", " := by
  intro d rest
  induction rest generalizing d with
  | nil => simp [joinAll, commaJoin]
  | cons e rest ih =>
    simp only [List.map_cons, joinAll, commaJoin] at *
    rw [ih e]
    simp [String.append_assoc]

/-- Canonical form of `RustSimpleEnum.to_string` for a non-empty derive
list: the slice removes exactly the trailing comma and space. -/
theorem to_string_eq_of_ne_nil (name : String) (vs : List String)
    (D : List String) (hD : D ≠ []) :
    RustSimpleEnum.to_string ⟨name, vs, D⟩ =
      "#[derive(" ++ commaJoin D ++ ")]\n" ++ enumDecl name vs := by
  obtain ⟨d, rest, rfl⟩ : ∃ d rest, D = d :: rest := by
    cases D with
    | nil => exact absurd rfl hD
    | cons d rest => exact ⟨d, rest, rfl⟩
  show (trimLast2 ((d :: rest).foldl (fun acc x => acc ++ x ++ ", ") "#[derive(") ++ ")]\n"
      ++ "pub enum " ++ name ++ " \x7b\n"
      |> vs.foldl (fun acc v => acc ++ ("    " ++ v ++ ",\n"))) ++ "\x7d" = _
  have h1 : (d :: rest).foldl (fun acc x => acc ++ x ++ ", ") "#[derive(" =
      "#[derive(" ++ (commaJoin (d :: rest) ++ ", ") := by
    have := foldl_append_join (fun x => x ++ ", ") (d :: rest) "#[derive("
    simp only [String.append_assoc] at this ⊢
    rw [this, joinAll_sep_eq_commaJoin]
  rw [h1, show "#[derive(" ++ (commaJoin (d :: rest) ++ ", ") =
      ("#[derive(" ++ commaJoin (d :: rest)) ++ ", " by simp [String.append_assoc],
    trimLast2_append_sep]
  rw [foldl_append_join (fun v => "    " ++ v ++ ",\n") vs]
  simp only [enumDecl, variantLinesText, String.append_assoc]

/-- Canonical form of `RustSimpleEnum.to_string` for an empty derive list:
the slice eats the last two characters of the literal prefix itself,
leaving the corrupted header text. -/
theorem to_string_eq_of_nil (name : String) (vs : List String) :
    RustSimpleEnum.to_string ⟨name, vs, []⟩ =
      "#[deriv)]\n" ++ enumDecl name vs := by
  show (trimLast2 "#[derive(" ++ ")]\n" ++ "pub enum " ++ name ++ " \x7b\n"
      |> vs.foldl (fun acc v => acc ++ ("    " ++ v ++ ",\n"))) ++ "\x7d" = _
  have h1 : trimLast2 "#[derive(" = "#[deriv" := rfl
  rw [h1, foldl_append_join (fun v => "    " ++ v ++ ",\n") vs]
  simp only [enumDecl, variantLinesText, String.append_assoc]
  simp [← String.append_assoc]

theorem moduleLoop_eq :
    ∀ (ms : List RustItem) (p : String),
      RustItem.moduleLoop ms p = p ++ joinAll (ms.map (fun m => "\n" ++ m.to_string)) := by
  intro ms
  induction ms with
  | nil => intro p; simp [RustItem.moduleLoop, joinAll]
  | cons m ms ih =>
    intro p
    simp only [RustItem.moduleLoop, List.map_cons, joinAll]
    rw [ih]
    simp [String.append_assoc]

/-- C5: the concrete Icon enumeration of the unit test renders to the exact
literal block of the spec, with a comma-space-joined derive list, 4-space
indent and a trailing comma on every variant line. -/
theorem icon_enum_renders_exact :
    RustSimpleEnum.to_string
        ⟨"Icon", ["Angle", "Coincident", "Colinear", "Distance"],
          ["Hash", "Clone", "FromStr", "PartialEq", "Eq", "Debug", "Default"]⟩ =
      "#[derive(Hash, Clone, FromStr, PartialEq, Eq, Debug, Default)]\npub enum Icon \x7b\n    Angle,\n    Coincident,\n    Colinear,\n    Distance,\n\x7d" := by
  rfl

/-- C1: with an empty derive list the rendered header is the corrupted text
starting with the truncated attribute, not a well-formed derive header:
the two-character slice eats into the literal prefix itself. -/
theorem empty_derives_header_corrupt :
    (∀ name vs, RustSimpleEnum.to_string ⟨name, vs, []⟩ = "#[deriv)]\n" ++ enumDecl name vs) ∧
      RustSimpleEnum.to_string ⟨"Icon", ["A"], []⟩ = "#[deriv)]\npub enum Icon \x7b\n    A,\n\x7d" := by
  exact ⟨to_string_eq_of_nil, by rfl⟩

/-- C4 counterexample: with exactly one derived capability the rendered
output is the well-formed block, contradicting the claim that a
single-element derive list is corrupted by the trim. -/
theorem single_derive_wellformed_cex :
    RustSimpleEnum.to_string ⟨"Icon", ["A"], ["Hash"]⟩ =
      "#[derive(Hash)]\npub enum Icon \x7b\n    A,\n\x7d" := by
  rfl

/-- C4 amended: the trim corrupts the header exactly when the derive list
is empty, producing the truncated header text; a single-element derive
list renders a well-formed header since the trim removes precisely the
trailing comma and space. -/
theorem trim_corrupts_only_empty_derives :
    ∀ name vs d,
      RustSimpleEnum.to_string ⟨name, vs, [d]⟩ =
          "#[derive(" ++ d ++ ")]\n" ++ enumDecl name vs ∧
        RustSimpleEnum.to_string ⟨name, vs, []⟩ = "#[deriv)]\n" ++ enumDecl name vs := by
  intro name vs d
  refine ⟨?_, to_string_eq_of_nil name vs⟩
  have h := to_string_eq_of_ne_nil name vs [d] (by simp)
  simpa [commaJoin] using h

/-- C10: with no variants and a non-empty derive list, rendering succeeds
and yields the derive header followed by an empty enum declaration. -/
theorem empty_variants_render (name : String) (D : List String) (hD : D ≠ []) :
    RustSimpleEnum.to_string ⟨name, [], D⟩ =
      "#[derive(" ++ commaJoin D ++ ")]\n" ++ ("pub enum " ++ name ++ " \x7b\n\x7d") := by
  rw [to_string_eq_of_ne_nil name [] D hD]
  simp only [enumDecl, variantLinesText, List.map_nil, joinAll, String.append_empty,
    String.append_assoc]
  simp [← String.append_assoc]

/-- C10 witness: the empty-variant rendering at a concrete input. -/
theorem empty_variants_render_witness :
    (["Hash"] : List String) ≠ [] ∧
      RustSimpleEnum.to_string ⟨"Icon", [], ["Hash"]⟩ =
        "#[derive(" ++ commaJoin ["Hash"] ++ ")]\n" ++ ("pub enum " ++ "Icon" ++ " \x7b\n\x7d") :=
  ⟨by simp, empty_variants_render "Icon" ["Hash"] (by simp)⟩

/-- C7: a module renders as, for each member in order, a newline followed
by the member's rendered text; the empty module renders to the empty
string and a two-member module to the two prefixed blocks in order. -/
theorem module_render_concat :
    (∀ ms, RustItem.to_string (RustItem.module ms) =
        joinAll (ms.map (fun m => "\n" ++ m.to_string))) ∧
      RustItem.to_string (RustItem.module []) = "" ∧
      ∀ a b, RustItem.to_string (RustItem.module [a, b]) =
        "\n" ++ a.to_string ++ "\n" ++ b.to_string := by
  have h : ∀ ms, RustItem.to_string (RustItem.module ms) =
      joinAll (ms.map (fun m => "\n" ++ m.to_string)) := by
    intro ms
    rw [RustItem.to_string, moduleLoop_eq]
    simp
  refine ⟨h, by simpa using h [], ?_⟩
  intro a b
  rw [h]
  simp [joinAll, String.append_assoc]

theorem splitOn_line (l rest : List Char) (hl : ('\n') ∉ l) :
    List.splitOn '\n' (l ++ ('\n') :: rest) = l :: List.splitOn '\n' rest := by
  show List.splitOnP (fun c => c == '\n') (l ++ ('\n') :: rest) =
    l :: List.splitOnP (fun c => c == '\n') rest
  refine List.splitOnP_first _ l ?_ '\n' (by simp) rest
  intro x hx
  simp only [beq_iff_eq]
  intro hx'
  exact hl (hx' ▸ hx)

theorem splitOn_last (l : List Char) (hl : ('\n') ∉ l) :
    List.splitOn '\n' l = [l] := by
  show List.splitOnP (fun c => c == '\n') l = [l]
  refine List.splitOnP_eq_single _ l ?_
  intro x hx
  simp only [beq_iff_eq]
  intro hx'
  exact hl (hx' ▸ hx)

theorem splitOn_data_append_line (a b : String) (ha : ('\n') ∉ a.data) :
    List.splitOn '\n' ((a ++ "\n" ++ b).data) = a.data :: List.splitOn '\n' b.data := by
  have h : (a ++ "\n" ++ b).data = a.data ++ ('\n') :: b.data := by
    simp [String.data_append]
  rw [h]
  exact splitOn_line a.data b.data ha

theorem variantLines_splitOn :
    ∀ (V : List String), (∀ v ∈ V, ('\n') ∉ v.data) →
      List.splitOn '\n' ((variantLinesText V).data ++ ("\x7d" : String).data) =
        V.map (fun v => ("    " ++ v ++ ",").data) ++ [("\x7d" : String).data] := by
  intro V
  induction V with
  | nil =>
    intro _
    simp only [variantLinesText, List.map_nil, joinAll, List.nil_append]
    exact splitOn_last _ (by decide)
  | cons v vs ih =>
    intro h
    have hv : ('\n') ∉ v.data := h v (by simp)
    have hvs : ∀ x ∈ vs, ('\n') ∉ x.data := fun x hx => h x (by simp [hx])
    have hline : ('\n') ∉ (("    " ++ v) ++ ",").data := by
      simp only [String.data_append, List.mem_append]
      intro hc
      rcases hc with hc | hc
      · rcases hc with hc | hc
        · exact absurd hc (by decide)
        · exact hv hc
      · exact absurd hc (by decide)
    have hsplit : (variantLinesText (v :: vs)).data ++ ("\x7d" : String).data =
        (("    " ++ v) ++ ",").data ++ ('\n') :: ((variantLinesText vs).data ++ ("\x7d" : String).data) := by
      simp only [variantLinesText, List.map_cons, joinAll, String.data_append]
      simp [String.data_append, List.append_assoc]
    rw [hsplit, splitOn_line _ _ hline, ih hvs]
    simp [String.append_assoc]

theorem commaJoin_no_newline :
    ∀ (D : List String), (∀ d ∈ D, ('\n') ∉ d.data) → ('\n') ∉ (commaJoin D).data := by
  intro D
  induction D with
  | nil => intro _; simp [commaJoin]
  | cons d rest ih =>
    intro h
    cases rest with
    | nil => simpa [commaJoin] using h d (by simp)
    | cons e rest2 =>
      have hd0 : ('\n') ∉ d.data := h d (by simp)
      have hrest : ('\n') ∉ (commaJoin (e :: rest2)).data :=
        ih (fun x hx => h x (by simp [hx]))
      simp only [commaJoin, String.data_append, List.mem_append]
      intro hc
      rcases hc with hc | hc
      · rcases hc with hc | hc
        · exact hd0 hc
        · exact absurd hc (by decide)
      · exact hrest hc

/-- C6: for every enumeration with a non-empty list of distinct,
newline-free variants and newline-free name and tags, the rendered text
splits on newlines into some header line, the enum-opening line, exactly
one line per variant in input order (four spaces, the variant verbatim, a
trailing comma), and the closing brace line. -/
theorem variant_lines_split (name : String) (V D : List String)
    (hV : V ≠ []) (hnodup : V.Nodup)
    (hname : ('\n') ∉ name.data)
    (hv : ∀ v ∈ V, ('\n') ∉ v.data)
    (hd : ∀ d ∈ D, ('\n') ∉ d.data) :
    ∃ hline, List.splitOn '\n' (RustSimpleEnum.to_string ⟨name, V, D⟩).data =
      hline :: ("pub enum " ++ name ++ " \x7b").data ::
        (V.map (fun v => ("    " ++ v ++ ",").data) ++ [("\x7d" : String).data]) := by
  have henum : ('\n') ∉ ("pub enum " ++ name ++ " \x7b").data := by
    simp only [String.data_append, List.mem_append]
    intro hc
    rcases hc with hc | hc
    · rcases hc with hc | hc
      · exact absurd hc (by decide)
      · exact hname hc
    · exact absurd hc (by decide)
  by_cases hD : D = []
  · subst hD
    refine ⟨("#[deriv)]" : String).data, ?_⟩
    rw [to_string_eq_of_nil]
    have heq : ("#[deriv)]\n" : String) ++ enumDecl name V =
        ("#[deriv)]" : String) ++ "\n" ++
          (("pub enum " ++ name ++ " \x7b") ++ "\n" ++ (variantLinesText V ++ "\x7d")) := by
      simp [enumDecl, String.append_assoc]
    rw [heq, splitOn_data_append_line _ _ (by decide),
      splitOn_data_append_line _ _ henum]
    rw [show (variantLinesText V ++ "\x7d").data =
      (variantLinesText V).data ++ ("\x7d" : String).data from by simp [String.data_append]]
    rw [variantLines_splitOn V hv]
  · refine ⟨("#[derive(" ++ commaJoin D ++ ")]").data, ?_⟩
    rw [to_string_eq_of_ne_nil name V D hD]
    have hhead : ('\n') ∉ (("#[derive(" ++ commaJoin D) ++ ")]").data := by
      simp only [String.data_append, List.mem_append]
      intro hc
      rcases hc with hc | hc
      · rcases hc with hc | hc
        · exact absurd hc (by decide)
        · exact commaJoin_no_newline D hd hc
      · exact absurd hc (by decide)
    have heq : ("#[derive(" : String) ++ commaJoin D ++ ")]\n" ++ enumDecl name V =
        (("#[derive(" : String) ++ commaJoin D ++ ")]") ++ "\n" ++
          (("pub enum " ++ name ++ " \x7b") ++ "\n" ++ (variantLinesText V ++ "\x7d")) := by
      simp [enumDecl, String.append_assoc]
    rw [heq, splitOn_data_append_line _ _ hhead,
      splitOn_data_append_line _ _ henum]
    rw [show (variantLinesText V ++ "\x7d").data =
      (variantLinesText V).data ++ ("\x7d" : String).data from by simp [String.data_append]]
    rw [variantLines_splitOn V hv]

/-- C6 witness: the line decomposition at a concrete enumeration. -/
theorem variant_lines_split_witness :
    (["Angle", "Coincident"] : List String) ≠ [] ∧
      (["Angle", "Coincident"] : List String).Nodup ∧
      ('\n') ∉ ("Icon" : String).data ∧
      (∀ v ∈ (["Angle", "Coincident"] : List String), ('\n') ∉ v.data) ∧
      (∀ d ∈ (["Hash"] : List String), ('\n') ∉ d.data) ∧
      ∃ hline, List.splitOn '\n'
          (RustSimpleEnum.to_string ⟨"Icon", ["Angle", "Coincident"], ["Hash"]⟩).data =
        hline :: ("pub enum " ++ "Icon" ++ " \x7b").data ::
          ((["Angle", "Coincident"] : List String).map (fun v => ("    " ++ v ++ ",").data) ++
            [("\x7d" : String).data]) :=
  ⟨by decide, by decide, by decide, by decide, by decide,
    variant_lines_split "Icon" ["Angle", "Coincident"] ["Hash"]
      (by decide) (by decide) (by decide) (by decide) (by decide)⟩

/-- A source image as the packer sees it: a name derived from the file
name, and pixel dimensions. The pixel buffer is opaque to the layout
computation. -/
structure NamedImage where
  name : String
  width : Int
  height : Int
deriving DecidableEq

/-- One row of the emitted manifest: `[name, x, y, tile_size, tile_size]`. -/
structure CsvRow where
  name : String
  x : Int
  y : Int
  width : Int
  height : Int
deriving DecidableEq

/-- One `atlas.paste(img, (paste_x, paste_y))` call: the paste position and
the unchanged dimensions of the pasted image. -/
structure PasteOp where
  name : String
  paste_x : Int
  paste_y : Int
  width : Int
  height : Int
deriving DecidableEq

/-- The pure output of `generate_atlas`: canvas dimensions, the paste
operations in order, and the manifest rows in order. -/
structure AtlasResult where
  atlas_width : Int
  atlas_height : Int
  pastes : List PasteOp
  csv_data : List CsvRow
deriving DecidableEq

/-- The `FileNotFoundError` raised when no images are found, the single
explicit error of `scripts/sprite_atlas.py`. -/
inductive AtlasError where
  | inputError
deriving DecidableEq

/-- Translation of the core of `generate_atlas` from
`scripts/sprite_atlas.py`, after image loading and before file writing:
raise on an empty image list, compute `rows = (n + grid_cols - 1) //
grid_cols` and the canvas size, and for each image at index `i` compute
its cell, its centered paste position, and its manifest row. Python `//`
and `%` are `Int.fdiv` and `Int.fmod`; the source's single loop appends
one paste and one manifest row per index, rendered here as two maps over
the enumerated list. -/
def generate_atlas (images : List NamedImage) (grid_cols tile_size : Int) :
    Except AtlasError AtlasResult :=
  if images.isEmpty then Except.error AtlasError.inputError
  else
    let num_images : Int := images.length
    let rows := Int.fdiv (num_images + grid_cols - 1) grid_cols
    let atlas_width := grid_cols * tile_size
    let atlas_height := rows * tile_size
    let pastes := images.enum.map (fun p =>
      let row := Int.fdiv (p.1 : Int) grid_cols
      let col := Int.fmod (p.1 : Int) grid_cols
      let x := col * tile_size
      let y := row * tile_size
      let offset_x := Int.fdiv (tile_size - p.2.width) 2
      let offset_y := Int.fdiv (tile_size - p.2.height) 2
      PasteOp.mk p.2.name (x + offset_x) (y + offset_y) p.2.width p.2.height)
    let csv_data := images.enum.map (fun p =>
      let row := Int.fdiv (p.1 : Int) grid_cols
      let col := Int.fmod (p.1 : Int) grid_cols
      let x := col * tile_size
      let y := row * tile_size
      CsvRow.mk p.2.name x y tile_size tile_size)
    Except.ok (AtlasResult.mk atlas_width atlas_height pastes csv_data)

/-- Twelve concrete images for the spec's concrete scenario. -/
def imgs12 : List NamedImage :=
  [⟨"i0", 32, 32⟩, ⟨"i1", 32, 32⟩, ⟨"i2", 32, 32⟩, ⟨"i3", 32, 32⟩,
    ⟨"i4", 32, 32⟩, ⟨"i5", 32, 32⟩, ⟨"i6", 32, 32⟩, ⟨"i7", 32, 32⟩,
    ⟨"i8", 32, 32⟩, ⟨"i9", 32, 32⟩, ⟨"i10", 32, 32⟩, ⟨"i11", 32, 32⟩]

theorem ceil_div_eq (n g : Int) (hg : 0 < g) :
    ⌈(n : ℚ) / (g : ℚ)⌉ = Int.fdiv (n + g - 1) g := by
  rw [Int.fdiv_eq_ediv _ hg.le]
  have h := Int.ediv_add_emod (n + g - 1) g
  have h1 : 0 ≤ (n + g - 1) % g := Int.emod_nonneg _ (by omega)
  have h2 : (n + g - 1) % g < g := Int.emod_lt_of_pos _ hg
  have hgQ : (0 : ℚ) < (g : ℚ) := by exact_mod_cast hg
  rw [Int.ceil_eq_iff]
  constructor
  · rw [lt_div_iff hgQ]
    have e1 : ((n + g - 1) / g - 1) * g = g * ((n + g - 1) / g) - g := by ring
    have hint : ((n + g - 1) / g - 1) * g < n := by linarith
    exact_mod_cast hint
  · rw [div_le_iff hgQ]
    have e2 : (n + g - 1) / g * g = g * ((n + g - 1) / g) := by ring
    have hint : n ≤ (n + g - 1) / g * g := by linarith
    exact_mod_cast hint

/-- C2: for every non-empty image list and positive grid and tile
parameters, the manifest has one row per image in input order, and row `i`
records the full cell bounds: `x = (i mod grid_cols) * tile_size`,
`y = (i div grid_cols) * tile_size`, and `tile_size` for both dimensions. -/
theorem atlas_manifest_rows (images : List NamedImage) (grid_cols tile_size : Int)
    (hne : images ≠ []) (hgc : 0 < grid_cols) (hts : 0 < tile_size) :
    ∃ r, generate_atlas images grid_cols tile_size = Except.ok r ∧
      r.csv_data.length = images.length ∧
      ∀ i (hi : i < images.length),
        r.csv_data[i]? = some (CsvRow.mk (images[i]).name
          (((i : Int) % grid_cols) * tile_size) (((i : Int) / grid_cols) * tile_size)
          tile_size tile_size) := by
  obtain ⟨im, rest, rfl⟩ : ∃ im rest, images = im :: rest := by
    cases images with
    | nil => exact absurd rfl hne
    | cons im rest => exact ⟨im, rest, rfl⟩
  refine ⟨_, rfl, ?_, ?_⟩
  · simp [generate_atlas]
  · intro i hi
    have hlen : i < ((im :: rest).enum.map (fun p =>
        CsvRow.mk p.2.name ((Int.fmod (p.1 : Int) grid_cols) * tile_size)
          ((Int.fdiv (p.1 : Int) grid_cols) * tile_size) tile_size tile_size)).length := by
      simpa [List.enum_length] using hi
    show ((im :: rest).enum.map _)[i]? = _
    rw [List.getElem?_eq_getElem hlen, List.getElem_map, List.getElem_enum]
    rw [Int.fmod_eq_emod _ hgc.le, Int.fdiv_eq_ediv _ hgc.le]

/-- C2 witness: the manifest rows at a concrete input. -/
theorem atlas_manifest_rows_witness :
    imgs12 ≠ [] ∧ (0 : Int) < 10 ∧ (0 : Int) < 40 ∧
      ∃ r, generate_atlas imgs12 10 40 = Except.ok r ∧
        r.csv_data.length = imgs12.length ∧
        ∀ i (hi : i < imgs12.length),
          r.csv_data[i]? = some (CsvRow.mk (imgs12[i]).name
            (((i : Int) % 10) * 40) (((i : Int) / 10) * 40) 40 40) :=
  ⟨by decide, by decide, by decide,
    atlas_manifest_rows imgs12 10 40 (by decide) (by decide) (by decide)⟩

/-- C3: for positive parameters and a non-empty image list the canvas is
`grid_cols * tile_size` wide and `ceil(n / grid_cols) * tile_size` tall
with exactly one manifest row per image; concretely, 12 images at
`grid_cols = 10`, `tile_size = 40` give a 400 by 80 canvas and image
index 10 lands at row 1, column 0 with manifest entry `(0, 40, 40, 40)`. -/
theorem atlas_dims :
    (∀ (images : List NamedImage) (grid_cols tile_size : Int),
        images ≠ [] → 0 < grid_cols → 0 < tile_size →
        ∃ r, generate_atlas images grid_cols tile_size = Except.ok r ∧
          r.atlas_width = grid_cols * tile_size ∧
          r.atlas_height = ⌈(images.length : ℚ) / (grid_cols : ℚ)⌉ * tile_size ∧
          r.csv_data.length = images.length) ∧
      ∃ r, generate_atlas imgs12 10 40 = Except.ok r ∧
        r.atlas_width = 400 ∧ r.atlas_height = 80 ∧ r.csv_data.length = 12 ∧
        r.csv_data[10]? = some (CsvRow.mk "i10" 0 40 40 40) := by
  constructor
  · intro images grid_cols tile_size hne hgc hts
    obtain ⟨im, rest, rfl⟩ : ∃ im rest, images = im :: rest := by
      cases images with
      | nil => exact absurd rfl hne
      | cons im rest => exact ⟨im, rest, rfl⟩
    refine ⟨_, rfl, rfl, ?_, ?_⟩
    · show Int.fdiv (((im :: rest).length : Int) + grid_cols - 1) grid_cols * tile_size = _
      have hcast : (((im :: rest).length : ℚ)) = ((((im :: rest).length : Int)) : ℚ) := by
        push_cast
        ring
      rw [hcast, ceil_div_eq _ _ hgc]
    · simp [List.enum_length]
  · exact ⟨_, rfl, by decide, by decide, by decide, by decide⟩

/-- C3 witness: the dimension theorem applied at the concrete scenario. -/
theorem atlas_dims_witness :
    imgs12 ≠ [] ∧ (0 : Int) < 10 ∧ (0 : Int) < 40 ∧
      ∃ r, generate_atlas imgs12 10 40 = Except.ok r ∧
        r.atlas_width = 10 * 40 ∧
        r.atlas_height = ⌈(imgs12.length : ℚ) / ((10 : Int) : ℚ)⌉ * 40 ∧
        r.csv_data.length = imgs12.length :=
  ⟨by decide, by decide, by decide,
    atlas_dims.1 imgs12 10 40 (by decide) (by decide) (by decide)⟩

/-- C8: packing an empty image list fails with the input error, and that
is the only failure: every non-empty list with positive parameters packs
successfully. -/
theorem atlas_empty_input_error :
    (∀ grid_cols tile_size : Int,
        generate_atlas [] grid_cols tile_size = Except.error AtlasError.inputError) ∧
      ∀ (images : List NamedImage) (grid_cols tile_size : Int),
        images ≠ [] → 0 < grid_cols → 0 < tile_size →
        ∃ r, generate_atlas images grid_cols tile_size = Except.ok r := by
  constructor
  · intro grid_cols tile_size
    rfl
  · intro images grid_cols tile_size hne hgc hts
    obtain ⟨im, rest, rfl⟩ : ∃ im rest, images = im :: rest := by
      cases images with
      | nil => exact absurd rfl hne
      | cons im rest => exact ⟨im, rest, rfl⟩
    exact ⟨_, rfl⟩

/-- C8 witness: the error on the empty list and success on a singleton. -/
theorem atlas_empty_input_error_witness :
    generate_atlas [] 10 40 = Except.error AtlasError.inputError ∧
      ([(⟨"a", 32, 32⟩ : NamedImage)] ≠ ([] : List NamedImage) ∧
        (0 : Int) < 10 ∧ (0 : Int) < 40 ∧
        ∃ r, generate_atlas [⟨"a", 32, 32⟩] 10 40 = Except.ok r) :=
  ⟨atlas_empty_input_error.1 10 40,
    by decide, by decide, by decide,
    atlas_empty_input_error.2 [⟨"a", 32, 32⟩] 10 40 (by decide) (by decide) (by decide)⟩

/-- C9: each image is pasted centered in its cell at
`cell + (tile_size - dimension) div 2` with its dimensions unchanged, and
when a dimension exceeds `tile_size` the paste coordinate falls strictly
before the cell origin, so the unresized image overflows the cell. -/
theorem atlas_paste_centered (images : List NamedImage) (grid_cols tile_size : Int)
    (hne : images ≠ []) (hgc : 0 < grid_cols) (hts : 0 < tile_size) :
    ∃ r, generate_atlas images grid_cols tile_size = Except.ok r ∧
      r.pastes.length = images.length ∧
      ∀ i (hi : i < images.length),
        r.pastes[i]? = some (PasteOp.mk (images[i]).name
            (((i : Int) % grid_cols) * tile_size + (tile_size - (images[i]).width) / 2)
            (((i : Int) / grid_cols) * tile_size + (tile_size - (images[i]).height) / 2)
            (images[i]).width (images[i]).height) ∧
          (tile_size < (images[i]).width →
            ((i : Int) % grid_cols) * tile_size + (tile_size - (images[i]).width) / 2 <
              ((i : Int) % grid_cols) * tile_size) ∧
          (tile_size < (images[i]).height →
            ((i : Int) / grid_cols) * tile_size + (tile_size - (images[i]).height) / 2 <
              ((i : Int) / grid_cols) * tile_size) := by
  obtain ⟨im, rest, rfl⟩ : ∃ im rest, images = im :: rest := by
    cases images with
    | nil => exact absurd rfl hne
    | cons im rest => exact ⟨im, rest, rfl⟩
  refine ⟨_, rfl, ?_, ?_⟩
  · simp [List.enum_length]
  · intro i hi
    refine ⟨?_, ?_, ?_⟩
    · have hlen : i < ((im :: rest).enum.map (fun p =>
          PasteOp.mk p.2.name
            ((Int.fmod (p.1 : Int) grid_cols) * tile_size + Int.fdiv (tile_size - p.2.width) 2)
            ((Int.fdiv (p.1 : Int) grid_cols) * tile_size + Int.fdiv (tile_size - p.2.height) 2)
            p.2.width p.2.height)).length := by
        simpa [List.enum_length] using hi
      show ((im :: rest).enum.map _)[i]? = _
      rw [List.getElem?_eq_getElem hlen, List.getElem_map, List.getElem_enum]
      rw [Int.fmod_eq_emod _ hgc.le, Int.fdiv_eq_ediv _ hgc.le,
        Int.fdiv_eq_ediv _ (by omega), Int.fdiv_eq_ediv _ (by omega)]
    · intro hw
      have hneg : (tile_size - ((im :: rest)[i]).width) / 2 < 0 :=
        Int.ediv_neg' (by omega) (by omega)
      omega
    · intro hh
      have hneg : (tile_size - ((im :: rest)[i]).height) / 2 < 0 :=
        Int.ediv_neg' (by omega) (by omega)
      omega

/-- C9 witness: the paste positions at a concrete input with one oversized
image, whose paste coordinate falls before its cell origin. -/
theorem atlas_paste_centered_witness :
    ([(⟨"big", 50, 20⟩ : NamedImage), ⟨"small", 20, 20⟩] ≠ ([] : List NamedImage)) ∧
      (0 : Int) < 10 ∧ (0 : Int) < 40 ∧
      ∃ r, generate_atlas [⟨"big", 50, 20⟩, ⟨"small", 20, 20⟩] 10 40 = Except.ok r ∧
        r.pastes.length = ([(⟨"big", 50, 20⟩ : NamedImage), ⟨"small", 20, 20⟩]).length ∧
        ∀ i (hi : i < ([(⟨"big", 50, 20⟩ : NamedImage), ⟨"small", 20, 20⟩]).length),
          r.pastes[i]? = some (PasteOp.mk (([(⟨"big", 50, 20⟩ : NamedImage), ⟨"small", 20, 20⟩])[i]).name
              (((i : Int) % 10) * 40 + (40 - (([(⟨"big", 50, 20⟩ : NamedImage), ⟨"small", 20, 20⟩])[i]).width) / 2)
              (((i : Int) / 10) * 40 + (40 - (([(⟨"big", 50, 20⟩ : NamedImage), ⟨"small", 20, 20⟩])[i]).height) / 2)
              (([(⟨"big", 50, 20⟩ : NamedImage), ⟨"small", 20, 20⟩])[i]).width
              (([(⟨"big", 50, 20⟩ : NamedImage), ⟨"small", 20, 20⟩])[i]).height) ∧
            ((40 : Int) < (([(⟨"big", 50, 20⟩ : NamedImage), ⟨"small", 20, 20⟩])[i]).width →
              ((i : Int) % 10) * 40 + (40 - (([(⟨"big", 50, 20⟩ : NamedImage), ⟨"small", 20, 20⟩])[i]).width) / 2 <
                ((i : Int) % 10) * 40) ∧
            ((40 : Int) < (([(⟨"big", 50, 20⟩ : NamedImage), ⟨"small", 20, 20⟩])[i]).height →
              ((i : Int) / 10) * 40 + (40 - (([(⟨"big", 50, 20⟩ : NamedImage), ⟨"small", 20, 20⟩])[i]).height) / 2 <
                ((i : Int) / 10) * 40) :=
  ⟨by decide, by decide, by decide,
    atlas_paste_centered [⟨"big", 50, 20⟩, ⟨"small", 20, 20⟩] 10 40
      (by decide) (by decide) (by decide)⟩
